import Mathlib

/-!
Verification of the gitverdiff fingerprint engine (src/index.js, src/utils.js).

The JavaScript source is shallowly embedded: JS strings become Lean `String`
operated on through its `data : List Char` view (all inputs of interest are
ASCII, where JS UTF-16 code-unit operations and Lean code-point operations
agree), filesystem reads become explicit `Option`-valued oracles passed as
arguments, and thrown JS exceptions become `Except` errors.
-/

/-- JS-style character split: `splitChar sep l` mirrors `String.prototype.split`
with a single-character separator, always returning at least one (possibly
empty) piece. -/
def splitChar (sep : Char) : List Char → List (List Char)
  | [] => [[]]
  | c :: rest =>
    match splitChar sep rest with
    | [] => [[]]
    | g :: gs => if c = sep then [] :: g :: gs else (c :: g) :: gs

/-- JS `s.split(sep)` for a one-character separator, on Lean strings. -/
def jsSplit (sep : Char) (s : String) : List String :=
  (splitChar sep s.data).map (fun l => ⟨l⟩)

/-- JS `s.split(/\r?\n/)` as used by `readPatternsFromFile` in src/utils.js:
a piece boundary is either a bare newline or a carriage return followed by a
newline (the regex is leftmost-greedy, so `\r\n` is consumed as one boundary). -/
def splitLinesRE : List Char → List (List Char)
  | [] => [[]]
  | '\r' :: '\n' :: rest => [] :: splitLinesRE rest
  | '\n' :: rest => [] :: splitLinesRE rest
  | c :: rest =>
    match splitLinesRE rest with
    | [] => [[c]]
    | g :: gs => (c :: g) :: gs

/-- String version of `splitLinesRE`. -/
def jsSplitLines (s : String) : List String :=
  (splitLinesRE s.data).map (fun l => ⟨l⟩)

/-- JS `s.trim()`: drop leading and trailing whitespace (the inputs handled by
the source are ASCII, where `Char.isWhitespace` agrees with JS). -/
def jsTrim (s : String) : String :=
  ⟨((s.data.dropWhile Char.isWhitespace).reverse.dropWhile Char.isWhitespace).reverse⟩

/-- JS `s.startsWith(pre)`. -/
def jsStartsWith (s pre : String) : Bool :=
  pre.data.isPrefixOf s.data

/-- JS `s.slice(n)` / `s.substring(n)` for a nonnegative index. -/
def jsDrop (n : Nat) (s : String) : String :=
  ⟨s.data.drop n⟩

/-- JS `s.substring(0, n)`. -/
def jsTake (n : Nat) (s : String) : String :=
  ⟨s.data.take n⟩

/-- JS `Array.prototype.join(sep)`. -/
def jsJoin (sep : String) : List String → String
  | [] => ""
  | [x] => x
  | x :: y :: xs => x ++ sep ++ jsJoin sep (y :: xs)

/-- JS `[...new Set(list)]` keeps the first occurrence of each element, in
order; implemented with an accumulator of already-seen elements. -/
def jsSetDedupAux (seen : List String) : List String → List String
  | [] => []
  | a :: rest =>
    if a ∈ seen then jsSetDedupAux seen rest
    else a :: jsSetDedupAux (a :: seen) rest

/-- JS `[...new Set(list)]` deduplication, as used by `getGitModifiedFiles`. -/
def jsSetDedup (l : List String) : List String :=
  jsSetDedupAux [] l

/-- Character class of the regex `[^a-zA-Z0-9-_.]` in `sanitizeForFilesystem`
(src/utils.js line 123): the characters the regex does NOT replace. -/
def isAllowedFilenameChar (c : Char) : Bool :=
  c.isAlpha || c.isDigit || c == '-' || c == '_' || c == '.'

/-- Embeds `sanitizeForFilesystem` (src/utils.js lines 122-124):
`token.replace(/[^a-zA-Z0-9-_.]/g, ':')`, replacing every character outside
the allowed class with a colon. -/
def sanitizeForFilesystem (token : String) : String :=
  ⟨token.data.map (fun c => if isAllowedFilenameChar c then c else ':')⟩

/-- Lexicographic comparison of character lists by code point, mirroring the
default JS `Array.prototype.sort` string comparison (code-unit order, which
agrees with code-point order on the ASCII paths handled here). -/
def charListLE : List Char → List Char → Bool
  | [], _ => true
  | _ :: _, [] => false
  | a :: as, b :: bs => if a < b then true else if b < a then false else charListLE as bs

/-- Lexicographic order on strings used by the selector's `.sort()`. -/
def StrLE (s t : String) : Prop := charListLE s.data t.data = true

instance : DecidableRel StrLE := fun s t => by
  unfold StrLE; infer_instance

theorem charListLE_total (a b : List Char) :
    charListLE a b = true ∨ charListLE b a = true := by
  induction a generalizing b with
  | nil => left; rfl
  | cons x xs ih =>
    cases b with
    | nil => right; rfl
    | cons y ys =>
      by_cases hxy : x < y
      · left; simp [charListLE, hxy]
      · by_cases hyx : y < x
        · right; simp [charListLE, hyx, asymm hyx]
        · have h := ih ys
          rcases h with h | h
          · left; simp [charListLE, hxy, hyx, h]
          · right; simp [charListLE, hxy, hyx, h]

theorem charListLE_trans {a b c : List Char}
    (hab : charListLE a b = true) (hbc : charListLE b c = true) :
    charListLE a c = true := by
  induction a generalizing b c with
  | nil => rfl
  | cons x xs ih =>
    cases b with
    | nil => simp [charListLE] at hab
    | cons y ys =>
      cases c with
      | nil => simp [charListLE] at hbc
      | cons z zs =>
        simp only [charListLE] at hab hbc ⊢
        by_cases hxy : x < y
        · by_cases hyz : y < z
          · simp [lt_trans hxy hyz]
          · by_cases hzy : z < y
            · simp [hyz, hzy] at hbc
            · have hyz' : y = z := le_antisymm (not_lt.mp hzy) (not_lt.mp hyz)
              simp [hyz' ▸ hxy]
        · by_cases hyx : y < x
          · simp [hxy, hyx] at hab
          · have hxy' : x = y := le_antisymm (not_lt.mp hyx) (not_lt.mp hxy)
            subst hxy'
            simp only [lt_irrefl, if_false] at hab
            by_cases hxz : x < z
            · simp [hxz]
            · by_cases hzx : z < x
              · simp [hxz, hzx] at hbc
              · simp only [hxz, hzx, if_false] at hbc ⊢
                exact ih hab hbc

theorem charListLE_antisymm {a b : List Char}
    (hab : charListLE a b = true) (hba : charListLE b a = true) : a = b := by
  induction a generalizing b with
  | nil =>
    cases b with
    | nil => rfl
    | cons y ys => simp [charListLE] at hba
  | cons x xs ih =>
    cases b with
    | nil => simp [charListLE] at hab
    | cons y ys =>
      simp only [charListLE] at hab hba
      by_cases hxy : x < y
      · simp [hxy, asymm hxy] at hba
      · by_cases hyx : y < x
        · simp [hxy, hyx] at hab
        · have hxy' : x = y := le_antisymm (not_lt.mp hyx) (not_lt.mp hxy)
          subst hxy'
          simp only [lt_irrefl, if_false] at hab hba
          rw [ih hab hba]

instance : IsTotal String StrLE := ⟨fun s t => charListLE_total s.data t.data⟩

instance : IsTrans String StrLE :=
  ⟨fun _ _ _ hab hbc => charListLE_trans hab hbc⟩

instance : IsAntisymm String StrLE :=
  ⟨fun s t hab hba => by
    cases s; cases t
    exact congrArg String.mk (charListLE_antisymm hab hba)⟩

/-- One item of a glob character class: a single character or a range. -/
inductive ClsItem
  | single (c : Char)
  | range (lo hi : Char)
deriving DecidableEq

/-- One compiled element of a single-segment glob pattern. -/
inductive PatTok
  | star
  | qmark
  | lit (c : Char)
  | cls (negated : Bool) (items : List ClsItem)
deriving DecidableEq

/-- Scans a character class body up to the closing bracket, returning the body
and the remaining pattern characters. -/
def scanClass : List Char → Option (List Char × List Char)
  | [] => none
  | ']' :: rest => some ([], rest)
  | c :: rest => (scanClass rest).map (fun p => (c :: p.1, p.2))

/-- Parses class body characters into items, reading `a-b` as a range. -/
def parseClassItems : List Char → List ClsItem
  | a :: '-' :: b :: rest => ClsItem.range a b :: parseClassItems rest
  | c :: rest => ClsItem.single c :: parseClassItems rest
  | [] => []

/-- Membership of a character in a parsed class. -/
def charInClass (c : Char) (negated : Bool) (items : List ClsItem) : Bool :=
  let hit := items.any fun it =>
    match it with
    | ClsItem.single d => c == d
    | ClsItem.range lo hi => lo ≤ c && c ≤ hi
  if negated then !hit else hit

/-- Fuel-driven tokenizer for a single glob segment; the wrapper always
supplies enough fuel, the fuel only makes the recursion structural. -/
def tokenizeSegFuel : Nat → List Char → List PatTok
  | 0, _ => []
  | _, [] => []
  | fuel + 1, '*' :: rest => PatTok.star :: tokenizeSegFuel fuel rest
  | fuel + 1, '?' :: rest => PatTok.qmark :: tokenizeSegFuel fuel rest
  | fuel + 1, '[' :: rest =>
    match scanClass rest with
    | some (body, after) =>
      match body with
      | '!' :: items => PatTok.cls true (parseClassItems items) :: tokenizeSegFuel fuel after
      | '^' :: items => PatTok.cls true (parseClassItems items) :: tokenizeSegFuel fuel after
      | items => PatTok.cls false (parseClassItems items) :: tokenizeSegFuel fuel after
    | none => PatTok.lit '[' :: tokenizeSegFuel fuel rest
  | fuel + 1, c :: rest => PatTok.lit c :: tokenizeSegFuel fuel rest

/-- Tokenizes one slash-free glob segment. -/
def tokenizeSeg (l : List Char) : List PatTok :=
  tokenizeSegFuel l.length l

/-- Fuel-driven matcher of a tokenized segment pattern against the characters
of one path segment. -/
def matchToksFuel : Nat → List PatTok → List Char → Bool
  | 0, _, _ => false
  | _, [], t => t.isEmpty
  | fuel + 1, PatTok.star :: ps, [] => matchToksFuel fuel ps []
  | fuel + 1, PatTok.star :: ps, c :: ts =>
    matchToksFuel fuel ps (c :: ts) || matchToksFuel fuel (PatTok.star :: ps) ts
  | _, PatTok.qmark :: _, [] => false
  | fuel + 1, PatTok.qmark :: ps, _ :: ts => matchToksFuel fuel ps ts
  | _, PatTok.lit _ :: _, [] => false
  | fuel + 1, PatTok.lit p :: ps, c :: ts => p == c && matchToksFuel fuel ps ts
  | _, PatTok.cls _ _ :: _, [] => false
  | fuel + 1, PatTok.cls neg items :: ps, c :: ts =>
    charInClass c neg items && matchToksFuel fuel ps ts

/-- Matches a tokenized segment pattern against one path segment. -/
def matchToks (ps : List PatTok) (t : List Char) : Bool :=
  matchToksFuel (ps.length + t.length + 1) ps t

/-- A compiled glob: each slash-separated pattern segment is either the
globstar segment or an ordinary tokenized segment. -/
inductive SegPat
  | globstar
  | seg (toks : List PatTok)
deriving DecidableEq

/-- Compiles a glob pattern string segment-by-segment. -/
def compileGlob (pattern : String) : List SegPat :=
  (jsSplit '/' pattern).map fun s =>
    if s = "**" then SegPat.globstar else SegPat.seg (tokenizeSeg s.data)

/-- Fuel-driven matcher of compiled glob segments against path segments;
a globstar matches any number (including zero) of whole segments. -/
def matchSegsFuel : Nat → List SegPat → List (List Char) → Bool
  | 0, _, _ => false
  | _, [], t => t.isEmpty
  | fuel + 1, SegPat.globstar :: ps, [] => matchSegsFuel fuel ps []
  | fuel + 1, SegPat.globstar :: ps, s :: ts =>
    matchSegsFuel fuel ps (s :: ts) || matchSegsFuel fuel (SegPat.globstar :: ps) ts
  | _, SegPat.seg _ :: _, [] => false
  | fuel + 1, SegPat.seg toks :: ps, s :: ts =>
    matchToks toks s && matchSegsFuel fuel ps ts

/-- Modelled from the spec: shell-glob-style matching (`*`, `**`, `?`,
character classes) of a pattern against a package-relative path, segment by
segment. The concrete matcher (the `minimatch` dependency) is not part of the
repository's source tree, so its semantics are taken from the specification's
description of the File Selector. -/
def globMatch (pattern path : String) : Bool :=
  matchSegsFuel ((compileGlob pattern).length + (jsSplit '/' path).length + 1)
    (compileGlob pattern) ((jsSplit '/' path).map String.data)

/-- Re-expresses a target path (as segments) relative to a base path (as
segments), mirroring POSIX `path.relative` on normalized inputs: shared
leading segments are dropped, each remaining base segment becomes `..`, and
the remaining target segments follow. -/
def relSegments : List String → List String → List String
  | [], ts => ts
  | b :: bs, [] => List.replicate (b :: bs).length ".."
  | b :: bs, t :: ts =>
    if b = t then relSegments bs ts
    else List.replicate (b :: bs).length ".." ++ t :: ts

/-- The package-relative re-expression of a repository-relative file path,
mirroring `path.relative(packageRoot, path.resolve(gitRoot, filePath))` in
src/index.js lines 80-81, where `sub` is the segment list leading from the
repository root down to the package root. -/
def relPathStr (sub : List String) (filePath : String) : String :=
  jsJoin "/" (relSegments sub (jsSplit '/' filePath))

/-- A JSON value that is either a string or an array of strings, the two
shapes the `gitverdiff.format` manifest field may take. -/
inductive JsListOrString
  | str (s : String)
  | list (l : List String)
deriving DecidableEq

/-- The `gitverdiff` namespace of a parsed package.json; every field is
optional. -/
structure GitverdiffCfg where
  includeGlobs : Option (List String)
  ignoreGlobs : Option (List String)
  formatField : Option JsListOrString
  separatorField : Option String
deriving DecidableEq

/-- A parsed package.json: its top-level `version` field (the empty string
standing for an absent field, matching `packageJson.version || ''`) and the
optional `gitverdiff` namespace. -/
structure PkgJson where
  version : String
  gitverdiff : Option GitverdiffCfg
deriving DecidableEq

/-- The state of a package.json file at some root: `none` means the file does
not exist, `some none` means it exists but is not valid JSON, and
`some (some j)` means it parses to `j`. -/
def ManifestFile : Type := Option (Option PkgJson)

/-- Embeds `readPatternsFromPackageJson` (src/utils.js lines 106-120) for the
list-valued fields `include` and `ignore`: a missing file, a malformed file,
a missing `gitverdiff` namespace, or a missing field all yield the empty
list (the malformed case through the `catch` branch). -/
def readPatternsFromPackageJson (get : GitverdiffCfg → Option (List String))
    (m : ManifestFile) : List String :=
  match m with
  | none => []
  | some none => []
  | some (some j) =>
    match j.gitverdiff with
    | none => []
    | some g =>
      match get g with
      | none => []
      | some l => l

/-- Embeds `readPatternsFromPackageJson` for the `format` field, whose value
may be a string or an array; a falsy field (absent, empty string) yields the
empty array, mirroring the ternary on src/utils.js lines 111-113. -/
def readFormatFromPackageJson (m : ManifestFile) : JsListOrString :=
  match m with
  | none => JsListOrString.list []
  | some none => JsListOrString.list []
  | some (some j) =>
    match j.gitverdiff with
    | none => JsListOrString.list []
    | some g =>
      match g.formatField with
      | none => JsListOrString.list []
      | some (JsListOrString.str s) =>
        if s = "" then JsListOrString.list [] else JsListOrString.str s
      | some (JsListOrString.list l) => JsListOrString.list l

/-- Embeds `getPackageVersion` (src/utils.js lines 71-83): a missing or
malformed package.json yields the empty string (the malformed case through
the `catch` branch). -/
def getPackageVersion (m : ManifestFile) : String :=
  match m with
  | none => ""
  | some none => ""
  | some (some j) => j.version

/-- Embeds `readPatternsFromFile` (src/utils.js lines 92-97): the content of
the flat pattern file (`none` when the file does not exist) is split on
`\r?\n` and blank lines are dropped by `.filter(Boolean)`. -/
def readPatternsFromFile (content : Option String) : List String :=
  match content with
  | none => []
  | some s => (jsSplitLines s).filter (fun l => l ≠ "")

/-- The filesystem state the resolver consults at one root: the package.json
state and the raw contents of the two flat pattern files. -/
structure RootConfig where
  manifest : ManifestFile
  verdiffFile : Option String
  verdiffIgnoreFile : Option String

/-- Embeds Step 2 of `generateVersionHash` (src/index.js lines 39-56): the
include-pattern cascade over the caller override, the package-root manifest,
the package-root `.gitverdiff` file, the same two lookups at the Git root
when the roots differ, and the match-everything default. `same` stands for
the `packageRoot !== gitRoot` comparison being false. -/
def resolveIncludePatterns (override : Option (List String))
    (pkg git : RootConfig) (same : Bool) : List String :=
  let a0 := override.getD []
  let a1 := if a0 = [] then readPatternsFromPackageJson GitverdiffCfg.includeGlobs pkg.manifest else a0
  let a2 := if a1 = [] then readPatternsFromFile pkg.verdiffFile else a1
  let a3 := if a2 = [] && !same then readPatternsFromPackageJson GitverdiffCfg.includeGlobs git.manifest else a2
  let a4 := if a3 = [] && !same then readPatternsFromFile git.verdiffFile else a3
  if a4 = [] then ["**/*"] else a4

/-- Embeds Step 3 of `generateVersionHash` (src/index.js lines 58-72): the
ignore-pattern cascade, which ends with the empty list instead of a default. -/
def resolveIgnorePatterns (override : Option (List String))
    (pkg git : RootConfig) (same : Bool) : List String :=
  let a0 := override.getD []
  let a1 := if a0 = [] then readPatternsFromPackageJson GitverdiffCfg.ignoreGlobs pkg.manifest else a0
  let a2 := if a1 = [] then readPatternsFromFile pkg.verdiffIgnoreFile else a1
  let a3 := if a2 = [] && !same then readPatternsFromPackageJson GitverdiffCfg.ignoreGlobs git.manifest else a2
  if a3 = [] && !same then readPatternsFromFile git.verdiffIgnoreFile else a3

/-- The emptiness test `!format || (Array.isArray(format) && format.length
=== 0)` of src/index.js lines 125, 128 and 134, on an optional
string-or-array value. -/
def formatIsEmpty : Option JsListOrString → Bool
  | none => true
  | some (JsListOrString.str s) => s = ""
  | some (JsListOrString.list l) => l.isEmpty

/-- The final normalization of src/index.js lines 137-139: a string format is
split on commas and each piece trimmed; an array is used as is. -/
def formatValToTokens : Option JsListOrString → List String
  | none => []
  | some (JsListOrString.str s) => (jsSplit ',' s).map jsTrim
  | some (JsListOrString.list l) => l

/-- The built-in default format token sequence (src/index.js line 135). -/
def defaultFormatTokens : List String :=
  ["package-version", "branch", "short-commit-sha", "diff-hash"]

/-- Embeds Step 9 of `generateVersionHash` (src/index.js lines 123-139): the
format cascade over the caller override, the package-root manifest, the
Git-root manifest when the roots differ, and the default token sequence,
followed by the string-splitting normalization. -/
def resolveFormatTokens (override : Option JsListOrString)
    (pkg git : ManifestFile) (same : Bool) : List String :=
  let f0 := override
  let f1 := if formatIsEmpty f0 then some (readFormatFromPackageJson pkg) else f0
  let f2 := if formatIsEmpty f1 && !same then some (readFormatFromPackageJson git) else f1
  let f3 := if formatIsEmpty f2 then some (JsListOrString.list defaultFormatTokens) else f2
  formatValToTokens f3

/-- A JS exception raised by the engine's filesystem interactions. -/
inductive JsError
  | jsonParse
  | enoent (path : String)
deriving DecidableEq

/-- The inline separator lookup of src/index.js lines 175-181 and 184-190:
unlike `readPatternsFromPackageJson`, it calls `JSON.parse` with no
try/catch, so a present-but-malformed package.json raises. A missing file or
a falsy field yields the empty string, meaning "not found, keep looking". -/
def readSeparatorField (m : ManifestFile) : Except JsError String :=
  match m with
  | none => Except.ok ""
  | some none => Except.error JsError.jsonParse
  | some (some j) =>
    Except.ok
      (match j.gitverdiff with
      | none => ""
      | some g =>
        match g.separatorField with
        | none => ""
        | some s => s)

/-- Embeds Step 11 of `generateVersionHash` (src/index.js lines 171-192): the
separator cascade over the caller override, the package-root manifest, the
Git-root manifest when the roots differ, and the `'-'` default; manifest
reads raise on malformed JSON. -/
def resolveSeparator (override : Option String) (pkg git : ManifestFile)
    (same : Bool) : Except JsError String :=
  let s0 := override.getD ""
  if s0 ≠ "" then Except.ok s0
  else
    match readSeparatorField pkg with
    | Except.error e => Except.error e
    | Except.ok s1 =>
      if s1 ≠ "" then Except.ok s1
      else if same then Except.ok "-"
      else
        match readSeparatorField git with
        | Except.error e => Except.error e
        | Except.ok s2 => if s2 ≠ "" then Except.ok s2 else Except.ok "-"

/-- Embeds Step 10's version lookup (src/index.js lines 143-146): the
package-root manifest's top-level `version` field, then the Git root's when
the roots differ and the first was falsy. -/
def resolvePackageVersion (pkg git : ManifestFile) (same : Bool) : String :=
  let v := getPackageVersion pkg
  if v = "" && !same then getPackageVersion git else v

/-- The raw outputs of the two git commands `getGitModifiedFiles` runs. -/
structure GitOutputs where
  lsFilesOutput : String
  statusOutput : String

/-- The result of the change-set provider: the file list and whether the
catch branch logged a diagnostic to the error stream. -/
structure GitFilesResult where
  files : List String
  loggedError : Bool
deriving DecidableEq

/-- The nonblank lines of `git ls-files -m -o --exclude-standard`: the
modified and untracked files (src/utils.js lines 42-46). -/
def gitListedFiles (o : GitOutputs) : List String :=
  (jsSplit '\n' o.lsFilesOutput).filter (fun l => l ≠ "")

/-- The deleted files extracted from `git status --porcelain`: lines starting
with space-D-space, with the first three characters removed (src/utils.js
lines 49-55). -/
def gitDeletedFiles (o : GitOutputs) : List String :=
  ((jsSplit '\n' o.statusOutput).filter (fun l => jsStartsWith l " D ")).map (jsDrop 3)

/-- Embeds `getGitModifiedFiles` (src/utils.js lines 39-63). The argument is
`none` when invoking git raised (either command), in which case the catch
branch logs a diagnostic and returns the empty list; otherwise the two
command outputs are parsed and combined with `[...new Set(...)]`. -/
def getGitModifiedFiles : Option GitOutputs → GitFilesResult
  | none => { files := [], loggedError := true }
  | some o =>
    { files := jsSetDedup (gitListedFiles o ++ gitDeletedFiles o), loggedError := false }

/-- The selection predicate of src/index.js lines 79-84: the repository
relative path is re-expressed relative to the package root, and survives when
some include pattern matches it and no ignore pattern does. -/
def fileIsSelected (includePatterns ignorePatterns : List String)
    (sub : List String) (filePath : String) : Bool :=
  let rel := relPathStr sub filePath
  includePatterns.any (fun p => globMatch p rel) &&
    !(ignorePatterns.any (fun p => globMatch p rel))

/-- Embeds Step 5 of `generateVersionHash` (src/index.js lines 79-85):
`gitModifiedFiles.filter(...).sort()`. The sort is JS's default sort applied
to the surviving repository-relative path strings. -/
def fileSelect (gitModifiedFiles includePatterns ignorePatterns : List String)
    (sub : List String) : List String :=
  List.insertionSort StrLE
    (gitModifiedFiles.filter (fileIsSelected includePatterns ignorePatterns sub))

/-- Resolves the bytes hashed for one selected file, mirroring src/index.js
lines 90-95: the package-root location is tried first (`fs.existsSync`), then
the Git-root location, and `fs.readFileSync` raises ENOENT when the fallback
location does not exist either. `pkgRead`/`gitRead` give the byte content of
a path resolved against the respective root, `none` meaning no such file. -/
def readFileForHash (pkgRead gitRead : String → Option (List Nat))
    (filePath : String) : Except JsError (List Nat) :=
  match pkgRead filePath with
  | some bytes => Except.ok bytes
  | none =>
    match gitRead filePath with
    | some bytes => Except.ok bytes
    | none => Except.error (JsError.enoent filePath)

/-- Embeds Step 6's loop (src/index.js lines 90-97): the concatenation of the
resolved byte streams fed to `hash.update`, in list order; the first file
readable at neither root raises and aborts the loop. -/
def collectHashInputBytes (pkgRead gitRead : String → Option (List Nat)) :
    List String → Except JsError (List Nat)
  | [] => Except.ok []
  | f :: rest =>
    match readFileForHash pkgRead gitRead f with
    | Except.error e => Except.error e
    | Except.ok bytes =>
      match collectHashInputBytes pkgRead gitRead rest with
      | Except.error e => Except.error e
      | Except.ok more => Except.ok (bytes ++ more)

/-- The well-known SHA-256 digest of the empty byte sequence, compared against
`sourceHash` on src/index.js lines 120-121. -/
def emptyHash : String :=
  "e3b0c44298fc1c149afbf4c8996fb92427ae41e4649b934ca495991b7852b855"

/-- The commit/branch information produced by Step 7. -/
structure RefState where
  commitHash : String
  branchName : String
deriving DecidableEq

/-- Embeds Step 7 of `generateVersionHash` (src/index.js lines 101-117).
`headContent` is the raw text of `.git/HEAD`; `readRef` gives the trimmed-at
read content of a ref file by its ref path (ref files are abstracted as a
total content oracle because no claim concerns a missing ref file). When the
trimmed HEAD starts with `ref:`, five characters are dropped and the result
trimmed to a ref path, whose `refs/heads/` front (eleven characters) is
removed to name the branch; otherwise the content is the commit hash and the
branch name stays empty (detached HEAD). -/
def inspectHead (headContent : String) (readRef : String → String) : RefState :=
  let gitHead := jsTrim headContent
  if jsStartsWith gitHead "ref:" then
    let refPath := jsTrim (jsDrop 5 gitHead)
    let branchName :=
      if jsStartsWith refPath "refs/heads/" then jsDrop 11 refPath else refPath
    { commitHash := jsTrim (readRef refPath), branchName := branchName }
  else
    { commitHash := gitHead, branchName := "" }

/-- The resolved values Step 10's token loop reads: the package version, the
branch name (empty on detached HEAD), the commit hash, and the content
digest. -/
structure FormatCtx where
  packageVersion : String
  branchName : String
  commitHash : String
  sourceHash : String
deriving DecidableEq

/-- The closed set of recognized format tokens (the switch cases of
src/index.js lines 149-164). -/
def knownTokens : List String :=
  ["package-version", "branch", "short-commit-sha", "commit-sha", "diff-hash"]

/-- One iteration of the token loop (src/index.js lines 148-167): the
segments (zero or one) pushed for a token, or the thrown unknown-token
error. -/
def tokenSegments (ctx : FormatCtx) (token : String) : Except String (List String) :=
  if token = "package-version" then
    Except.ok (if ctx.packageVersion = "" then [] else ["v" ++ ctx.packageVersion])
  else if token = "branch" then
    Except.ok (if ctx.branchName = "" then [] else [ctx.branchName])
  else if token = "short-commit-sha" then
    Except.ok [jsTake 7 ctx.commitHash]
  else if token = "commit-sha" then
    Except.ok [ctx.commitHash]
  else if token = "diff-hash" then
    Except.ok (if ctx.sourceHash = emptyHash then [] else [ctx.sourceHash])
  else
    Except.error ("Unknown token: " ++ token)

/-- The whole token loop of Step 10: the pushed segments in format order, or
the first thrown unknown-token error. -/
def buildTokens (ctx : FormatCtx) : List String → Except String (List String)
  | [] => Except.ok []
  | t :: rest =>
    match tokenSegments ctx t with
    | Except.error e => Except.error e
    | Except.ok seg =>
      match buildTokens ctx rest with
      | Except.error e => Except.error e
      | Except.ok segs => Except.ok (seg ++ segs)

/-- Embeds Steps 10-12 end to end (src/index.js lines 147-195): build the
segments, sanitize each, and join them with the separator. -/
def formatTokens (ctx : FormatCtx) (format : List String) (separator : String) :
    Except String String :=
  match buildTokens ctx format with
  | Except.error e => Except.error e
  | Except.ok toks => Except.ok (jsJoin separator (toks.map sanitizeForFilesystem))

/-- Modelled from the spec: the Config Resolver's priority chain, "first
non-empty wins", over list-valued candidates with a final built-in default. -/
def firstNonEmptyList : List (List String) → List String → List String
  | [], d => d
  | c :: rest, d => if c = [] then firstNonEmptyList rest d else c

/-- Modelled from the spec: the same priority chain over string-valued
candidates (the separator and version kinds). -/
def firstNonEmptyStr : List String → String → String
  | [], d => d
  | c :: rest, d => if c = "" then firstNonEmptyStr rest d else c

/-- Truthiness of a string-or-array candidate in the format chain: the empty
string and the empty array mean "try the next source". -/
def formatValIsEmpty : JsListOrString → Bool
  | JsListOrString.str s => s = ""
  | JsListOrString.list l => l.isEmpty

/-- Modelled from the spec: the priority chain over string-or-array format
candidates. -/
def firstTruthyFormat : List JsListOrString → JsListOrString → JsListOrString
  | [], d => d
  | c :: rest, d => if formatValIsEmpty c then firstTruthyFormat rest d else c

theorem resolveIncludePatterns_eq_chain (o : Option (List String))
    (p g : RootConfig) (same : Bool) :
    resolveIncludePatterns o p g same =
      firstNonEmptyList
        [o.getD [],
         readPatternsFromPackageJson GitverdiffCfg.includeGlobs p.manifest,
         readPatternsFromFile p.verdiffFile,
         if same then [] else readPatternsFromPackageJson GitverdiffCfg.includeGlobs g.manifest,
         if same then [] else readPatternsFromFile g.verdiffFile]
        ["**/*"] := by
  cases same <;>
    simp only [resolveIncludePatterns, firstNonEmptyList, Bool.not_true, Bool.not_false,
      Bool.and_true, Bool.and_false, if_true, if_false] <;>
    split_ifs <;> simp_all

theorem resolveIgnorePatterns_eq_chain (o : Option (List String))
    (p g : RootConfig) (same : Bool) :
    resolveIgnorePatterns o p g same =
      firstNonEmptyList
        [o.getD [],
         readPatternsFromPackageJson GitverdiffCfg.ignoreGlobs p.manifest,
         readPatternsFromFile p.verdiffIgnoreFile,
         if same then [] else readPatternsFromPackageJson GitverdiffCfg.ignoreGlobs g.manifest,
         if same then [] else readPatternsFromFile g.verdiffIgnoreFile]
        [] := by
  cases same <;>
    simp only [resolveIgnorePatterns, firstNonEmptyList, Bool.not_true, Bool.not_false,
      Bool.and_true, Bool.and_false, if_true, if_false] <;>
    split_ifs <;> simp_all

theorem resolveFormatTokens_eq_chain (o : Option JsListOrString)
    (p g : ManifestFile) (same : Bool) :
    resolveFormatTokens o p g same =
      formatValToTokens
        (some (firstTruthyFormat
          [o.getD (JsListOrString.list []),
           readFormatFromPackageJson p,
           if same then JsListOrString.list [] else readFormatFromPackageJson g]
          (JsListOrString.list defaultFormatTokens))) := by
  have hfe : ∀ v, formatIsEmpty (some v) = formatValIsEmpty v := by
    intro v; cases v <;> rfl
  have ho : (if formatIsEmpty o then some (readFormatFromPackageJson p) else o) =
      some (if formatValIsEmpty (o.getD (JsListOrString.list []))
            then readFormatFromPackageJson p else o.getD (JsListOrString.list [])) := by
    cases o with
    | none => rfl
    | some v =>
      rw [hfe]
      by_cases h : formatValIsEmpty v = true <;> simp_all
  cases same with
  | false =>
    simp only [resolveFormatTokens, ho, hfe, Bool.not_false, Bool.and_true]
    by_cases h1 : formatValIsEmpty (o.getD (JsListOrString.list [])) = true <;>
      by_cases h2 : formatValIsEmpty (readFormatFromPackageJson p) = true <;>
      by_cases h3 : formatValIsEmpty (readFormatFromPackageJson g) = true <;>
      simp_all [firstTruthyFormat]
  | true =>
    simp only [resolveFormatTokens, ho, hfe, Bool.not_true, Bool.and_false,
      Bool.false_eq_true, if_false]
    by_cases h1 : formatValIsEmpty (o.getD (JsListOrString.list [])) = true <;>
      by_cases h2 : formatValIsEmpty (readFormatFromPackageJson p) = true <;>
      simp_all [firstTruthyFormat, formatValIsEmpty]

/-- The separator value a well-formed (or absent) manifest contributes to the
chain; a malformed manifest contributes nothing here because the code raises
before any chain comparison happens. -/
def sepFieldVal (m : ManifestFile) : String :=
  match readSeparatorField m with
  | Except.ok s => s
  | Except.error _ => ""

theorem resolveSeparator_ok_eq_chain (o : Option String) (p g : ManifestFile)
    (same : Bool) (v : String) (h : resolveSeparator o p g same = Except.ok v) :
    v = firstNonEmptyStr [o.getD "", sepFieldVal p, if same then "" else sepFieldVal g] "-" := by
  unfold resolveSeparator at h
  by_cases h0 : o.getD "" = ""
  · simp only [h0, ne_eq, not_true_eq_false, if_false] at h
    cases hp : readSeparatorField p with
    | error e => rw [hp] at h; exact absurd h (by simp)
    | ok s1 =>
      rw [hp] at h
      simp only [firstNonEmptyStr, h0, if_true, sepFieldVal, hp]
      by_cases h1 : s1 = ""
      · simp only [h1, ne_eq, not_true_eq_false, if_false, if_true] at h ⊢
        cases same with
        | true =>
          simp only [if_true] at h ⊢
          exact (Except.ok.injEq _ _ |>.mp h).symm
        | false =>
          simp only [Bool.false_eq_true, if_false] at h ⊢
          cases hg : readSeparatorField g with
          | error e => rw [hg] at h; exact absurd h (by simp)
          | ok s2 =>
            rw [hg] at h
            simp only [sepFieldVal, hg]
            by_cases h2 : s2 = ""
            · simp only [h2, ne_eq, not_true_eq_false, if_false, if_true] at h ⊢
              exact (Except.ok.injEq _ _ |>.mp h).symm
            · simp only [h2, ne_eq, not_false_eq_true, if_true, if_false] at h ⊢
              exact (Except.ok.injEq _ _ |>.mp h).symm
      · simp only [h1, ne_eq, not_false_eq_true, if_true, if_false] at h ⊢
        exact (Except.ok.injEq _ _ |>.mp h).symm
  · simp only [h0, ne_eq, not_false_eq_true, if_true] at h
    simp only [firstNonEmptyStr, h0, if_false]
    exact (Except.ok.injEq _ _ |>.mp h).symm

theorem resolvePackageVersion_eq_chain (p g : ManifestFile) (same : Bool) :
    resolvePackageVersion p g same =
      firstNonEmptyStr [getPackageVersion p, if same then "" else getPackageVersion g] "" := by
  cases same <;>
    simp only [resolvePackageVersion, firstNonEmptyStr, Bool.not_true, Bool.not_false,
      Bool.and_true, Bool.and_false] <;>
    by_cases h : getPackageVersion p = "" <;>
    by_cases hg : getPackageVersion g = "" <;>
    simp_all


theorem mem_jsSetDedupAux (x : String) (l : List String) :
    ∀ seen, x ∈ jsSetDedupAux seen l ↔ x ∈ l ∧ x ∉ seen := by
  induction l with
  | nil => intro seen; simp [jsSetDedupAux]
  | cons a rest ih =>
    intro seen
    by_cases ha : a ∈ seen
    · simp only [jsSetDedupAux, ha, if_true, ih seen]
      constructor
      · rintro ⟨hx, hs⟩
        exact ⟨List.mem_cons_of_mem _ hx, hs⟩
      · rintro ⟨hx, hs⟩
        rcases List.mem_cons.mp hx with rfl | hx'
        · exact absurd ha hs
        · exact ⟨hx', hs⟩
    · simp only [jsSetDedupAux, ha, if_false, List.mem_cons]
      constructor
      · intro hmem
        rcases hmem with rfl | hmem'
        · exact ⟨Or.inl rfl, ha⟩
        · obtain ⟨hx, hs⟩ := (ih (a :: seen)).mp hmem'
          exact ⟨Or.inr hx, fun hc => hs (List.mem_cons_of_mem _ hc)⟩
      · rintro ⟨rfl | hx', hs⟩
        · exact Or.inl rfl
        · by_cases hxa : x = a
          · exact Or.inl hxa
          · refine Or.inr ((ih (a :: seen)).mpr ⟨hx', fun hc => ?_⟩)
            exact (List.mem_cons.mp hc).elim hxa hs

theorem nodup_jsSetDedupAux (l : List String) :
    ∀ seen, (jsSetDedupAux seen l).Nodup := by
  induction l with
  | nil => intro seen; exact List.nodup_nil
  | cons a rest ih =>
    intro seen
    by_cases ha : a ∈ seen
    · simpa [jsSetDedupAux, ha] using ih seen
    · simp only [jsSetDedupAux, ha, if_false]
      refine List.nodup_cons.mpr ⟨fun hc => ?_, ih (a :: seen)⟩
      exact ((mem_jsSetDedupAux a rest (a :: seen)).mp hc).2 (List.mem_cons_self a seen)

theorem mem_jsSetDedup (x : String) (l : List String) :
    x ∈ jsSetDedup l ↔ x ∈ l := by
  simp [jsSetDedup, mem_jsSetDedupAux]

theorem nodup_jsSetDedup (l : List String) : (jsSetDedup l).Nodup :=
  nodup_jsSetDedupAux l []

theorem tokenSegments_known (ctx : FormatCtx) {t : String} (h : t ∈ knownTokens) :
    ∃ s, tokenSegments ctx t = Except.ok s := by
  simp only [knownTokens, List.mem_cons, List.not_mem_nil, or_false] at h
  rcases h with rfl | rfl | rfl | rfl | rfl <;> exact ⟨_, rfl⟩

theorem tokenSegments_unknown (ctx : FormatCtx) {t : String} (h : t ∉ knownTokens) :
    tokenSegments ctx t = Except.error ("Unknown token: " ++ t) := by
  simp only [knownTokens, List.mem_cons, List.not_mem_nil, or_false, not_or] at h
  obtain ⟨h1, h2, h3, h4, h5⟩ := h
  simp [tokenSegments, h1, h2, h3, h4, h5]

theorem buildTokens_append (ctx : FormatCtx) (f1 f2 : List String) :
    buildTokens ctx (f1 ++ f2) =
      match buildTokens ctx f1, buildTokens ctx f2 with
      | Except.ok a, Except.ok b => Except.ok (a ++ b)
      | Except.error e, _ => Except.error e
      | Except.ok _, Except.error e => Except.error e := by
  induction f1 with
  | nil =>
    cases h2 : buildTokens ctx f2 <;> simp [buildTokens, h2]
  | cons t rest ih =>
    cases h0 : tokenSegments ctx t <;>
      cases h1 : buildTokens ctx rest <;>
      cases h2 : buildTokens ctx f2 <;>
      simp [List.cons_append, buildTokens, h0, ih, h1, h2]

theorem buildTokens_filter_diffhash {ctx : FormatCtx}
    (h : ctx.sourceHash = emptyHash) (fmt : List String) :
    buildTokens ctx fmt =
      buildTokens ctx (fmt.filter (fun t => !decide (t = "diff-hash"))) := by
  induction fmt with
  | nil => rfl
  | cons t rest ih =>
    by_cases ht : t = "diff-hash"
    · subst ht
      have hseg : tokenSegments ctx "diff-hash" = Except.ok [] := by
        simp [tokenSegments, h]
      have hfil : List.filter (fun t => !decide (t = "diff-hash")) ("diff-hash" :: rest) =
          List.filter (fun t => !decide (t = "diff-hash")) rest := by
        simp [List.filter_cons]
      rw [hfil, ← ih]
      cases hb : buildTokens ctx rest <;> simp [buildTokens, hseg, hb]
    · have hfil : List.filter (fun u => !decide (u = "diff-hash")) (t :: rest) =
          t :: List.filter (fun u => !decide (u = "diff-hash")) rest := by
        simp [List.filter_cons, ht]
      rw [hfil]
      cases h0 : tokenSegments ctx t <;> simp [buildTokens, h0, ← ih]

theorem buildTokens_unknown (ctx : FormatCtx) (fmt : List String)
    (h : ∃ t ∈ fmt, t ∉ knownTokens) :
    ∃ t ∈ fmt, t ∉ knownTokens ∧
      buildTokens ctx fmt = Except.error ("Unknown token: " ++ t) := by
  induction fmt with
  | nil => obtain ⟨t, ht, _⟩ := h; cases ht
  | cons t0 rest ih =>
    by_cases hk : t0 ∈ knownTokens
    · have h' : ∃ t ∈ rest, t ∉ knownTokens := by
        obtain ⟨t, ht, hu⟩ := h
        rcases List.mem_cons.mp ht with rfl | htr
        · exact absurd hk hu
        · exact ⟨t, htr, hu⟩
      obtain ⟨t, ht, hu, he⟩ := ih h'
      obtain ⟨s, hs⟩ := tokenSegments_known ctx hk
      exact ⟨t, List.mem_cons_of_mem _ ht, hu, by simp [buildTokens, hs, he]⟩
    · exact ⟨t0, List.mem_cons_self _ _, hk, by
        simp [buildTokens, tokenSegments_unknown ctx hk]⟩

/-- A package.json with a full gitverdiff configuration, used to instantiate
universally quantified theorems at concrete inputs. -/
def samplePkgJson : PkgJson :=
  { version := "1.2.3",
    gitverdiff := some
      { includeGlobs := some ["*.js"],
        ignoreGlobs := some [],
        formatField := some (JsListOrString.str "package-version,branch,short-commit-sha"),
        separatorField := some "|" } }

/-- A root whose package.json is `samplePkgJson` and that has no flat pattern
files. -/
def sampleRoot : RootConfig :=
  { manifest := some (some samplePkgJson), verdiffFile := none, verdiffIgnoreFile := none }

/-- A root with no package.json and no flat pattern files. -/
def emptyRoot : RootConfig :=
  { manifest := none, verdiffFile := none, verdiffIgnoreFile := none }

/-- Concrete formatter inputs used to instantiate theorems: version 1.2.3 on
branch main with no content modifications. -/
def sampleCtx : FormatCtx :=
  { packageVersion := "1.2.3",
    branchName := "main",
    commitHash := "abcdef1234567890abcdef1234567890abcdef12",
    sourceHash := emptyHash }

/-- C1: the claim says config resolution never raises on a malformed manifest
for every kind. The embedding evaluated at the failing input shows this holds
for include, ignore, format and version (each read returns the absent-field
value through its catch branch, and resolution continues down the chain), but
fails for the separator kind: the inline lookup of src/index.js line 177
parses the manifest with no try/catch and raises, at the package root and at
the repository root alike. -/
theorem claim1_malformed_manifest_evaluation :
    readPatternsFromPackageJson GitverdiffCfg.includeGlobs (some none) = [] ∧
    readPatternsFromPackageJson GitverdiffCfg.ignoreGlobs (some none) = [] ∧
    readFormatFromPackageJson (some none) = JsListOrString.list [] ∧
    getPackageVersion (some none) = "" ∧
    resolveIncludePatterns none
      { manifest := some none, verdiffFile := some "a.js\n", verdiffIgnoreFile := none }
      emptyRoot true = ["a.js"] ∧
    resolveSeparator none (some none) none true = Except.error JsError.jsonParse ∧
    resolveSeparator none (some (some { version := "", gitverdiff := none })) (some none) false =
      Except.error JsError.jsonParse :=
  ⟨rfl, rfl, rfl, rfl, rfl, rfl, rfl⟩

/-- C2: the claim says a selected file readable at neither root is silently
skipped by the hashing step. The embedding evaluated at the failing input (a
deleted file reported by git status) shows the change-set provider does
report it and the selector does select it, but the hashing loop raises ENOENT
from the unguarded `fs.readFileSync` of src/index.js line 95 instead of
skipping it. -/
theorem claim2_missing_file_evaluation :
    (getGitModifiedFiles (some { lsFilesOutput := "", statusOutput := " D file.txt\n" })).files =
      ["file.txt"] ∧
    fileSelect ["file.txt"] ["*.txt"] [] [] = ["file.txt"] ∧
    collectHashInputBytes (fun _ => none) (fun _ => none) ["file.txt"] =
      Except.error (JsError.enoent "file.txt") := by
  refine ⟨by decide, by decide, rfl⟩

/-- C3: for every kind the resolved value is the first non-empty result of
the priority chain: caller override, package-root manifest field, (for
include/ignore) the package-root flat pattern file, the same lookups at the
repository root only when the roots differ, and the built-in default
(include: the match-everything pattern, ignore: empty, format: the four-token
default sequence, separator: the dash, version: the empty string from the
top-level version field, which has no caller override). The separator part is
conditional on resolution returning a value, since a malformed manifest makes
it raise (claim C1). -/
theorem claim3_priority_chain (oL oI : Option (List String)) (oF : Option JsListOrString)
    (oS : Option String) (p g : RootConfig) (same : Bool) :
    (resolveIncludePatterns oL p g same =
      firstNonEmptyList
        [oL.getD [],
         readPatternsFromPackageJson GitverdiffCfg.includeGlobs p.manifest,
         readPatternsFromFile p.verdiffFile,
         if same then [] else readPatternsFromPackageJson GitverdiffCfg.includeGlobs g.manifest,
         if same then [] else readPatternsFromFile g.verdiffFile]
        ["**/*"]) ∧
    (resolveIgnorePatterns oI p g same =
      firstNonEmptyList
        [oI.getD [],
         readPatternsFromPackageJson GitverdiffCfg.ignoreGlobs p.manifest,
         readPatternsFromFile p.verdiffIgnoreFile,
         if same then [] else readPatternsFromPackageJson GitverdiffCfg.ignoreGlobs g.manifest,
         if same then [] else readPatternsFromFile g.verdiffIgnoreFile]
        []) ∧
    (resolveFormatTokens oF p.manifest g.manifest same =
      formatValToTokens
        (some (firstTruthyFormat
          [oF.getD (JsListOrString.list []),
           readFormatFromPackageJson p.manifest,
           if same then JsListOrString.list [] else readFormatFromPackageJson g.manifest]
          (JsListOrString.list defaultFormatTokens)))) ∧
    (∀ v, resolveSeparator oS p.manifest g.manifest same = Except.ok v →
      v = firstNonEmptyStr
        [oS.getD "", sepFieldVal p.manifest, if same then "" else sepFieldVal g.manifest]
        "-") ∧
    (resolvePackageVersion p.manifest g.manifest same =
      firstNonEmptyStr
        [getPackageVersion p.manifest, if same then "" else getPackageVersion g.manifest]
        "") :=
  ⟨resolveIncludePatterns_eq_chain oL p g same,
   resolveIgnorePatterns_eq_chain oI p g same,
   resolveFormatTokens_eq_chain oF p.manifest g.manifest same,
   fun v h => resolveSeparator_ok_eq_chain oS p.manifest g.manifest same v h,
   resolvePackageVersion_eq_chain p.manifest g.manifest same⟩

/-- Witness for C3: the separator chain hypothesis is discharged at a
concrete manifest whose gitverdiff.separator field is the pipe character. -/
theorem claim3_priority_chain_witness :
    resolveSeparator (none : Option String) sampleRoot.manifest emptyRoot.manifest true =
      Except.ok "|" ∧
    "|" = firstNonEmptyStr
      [(none : Option String).getD "", sepFieldVal sampleRoot.manifest,
       if true then "" else sepFieldVal emptyRoot.manifest] "-" := by
  have h : resolveSeparator (none : Option String) sampleRoot.manifest emptyRoot.manifest true =
      Except.ok "|" := rfl
  exact ⟨h, (claim3_priority_chain none none none none sampleRoot emptyRoot true).2.2.2.1 "|" h⟩

/-- Counterexample for C4: with the package root one directory below the
repository root, the selector's output is sorted on the reported
repository-relative strings; their package-relative re-expressions are not in
ascending order, so the claimed sort key (the package-relative path) is
refuted at this concrete input. -/
theorem claim4_counterexample :
    fileSelect ["zz/a.js", "pkg/b.js"] ["b.js", "../zz/a.js"] [] ["pkg"] =
      ["pkg/b.js", "zz/a.js"] ∧
    relPathStr ["pkg"] "pkg/b.js" = "b.js" ∧
    relPathStr ["pkg"] "zz/a.js" = "../zz/a.js" ∧
    ¬ List.Sorted StrLE
      ((fileSelect ["zz/a.js", "pkg/b.js"] ["b.js", "../zz/a.js"] [] ["pkg"]).map
        (relPathStr ["pkg"])) := by
  refine ⟨by decide, by decide, by decide, ?_⟩
  intro hsort
  have hmap : (fileSelect ["zz/a.js", "pkg/b.js"] ["b.js", "../zz/a.js"] [] ["pkg"]).map
      (relPathStr ["pkg"]) = ["b.js", "../zz/a.js"] := by decide
  rw [hmap] at hsort
  have hle : StrLE "b.js" "../zz/a.js" :=
    List.rel_of_sorted_cons hsort _ (List.mem_singleton.mpr rfl)
  exact absurd hle (by decide)

/-- C4 as amended: a reported path is selected iff its package-relative
re-expression matches at least one include pattern and no ignore pattern, and
the output is sorted lexicographically ascending on the reported
repository-relative path string (not its package-relative re-expression),
independent of the order in which the change-set provider reported the
paths. -/
theorem claim4_selection_and_sort
    (changes changes' includePatterns ignorePatterns : List String)
    (sub : List String) (f : String) :
    (f ∈ fileSelect changes includePatterns ignorePatterns sub ↔
      f ∈ changes ∧
        (∃ p ∈ includePatterns, globMatch p (relPathStr sub f) = true) ∧
        (∀ p ∈ ignorePatterns, globMatch p (relPathStr sub f) = false)) ∧
    List.Sorted StrLE (fileSelect changes includePatterns ignorePatterns sub) ∧
    (changes.Perm changes' →
      fileSelect changes includePatterns ignorePatterns sub =
        fileSelect changes' includePatterns ignorePatterns sub) := by
  refine ⟨?_, List.sorted_insertionSort StrLE _, ?_⟩
  · simp only [fileSelect, List.mem_insertionSort, List.mem_filter, fileIsSelected,
      Bool.and_eq_true, Bool.not_eq_true', List.any_eq_true, List.any_eq_false,
      Bool.not_eq_true, and_assoc]
  · intro hp
    exact List.eq_of_perm_of_sorted
      (((List.perm_insertionSort StrLE _).trans
        (hp.filter (fileIsSelected includePatterns ignorePatterns sub))).trans
        (List.perm_insertionSort StrLE _).symm)
      (List.sorted_insertionSort StrLE _) (List.sorted_insertionSort StrLE _)

/-- Witness for C4: the amended theorem applied at concrete lists, the
permutation hypothesis discharged by a transposition. -/
theorem claim4_selection_and_sort_witness :
    ("a.txt" ∈ fileSelect ["b.txt", "a.txt"] ["a.txt", "b.txt"] [] [] ↔
      "a.txt" ∈ ["b.txt", "a.txt"] ∧
        (∃ p ∈ (["a.txt", "b.txt"] : List String),
          globMatch p (relPathStr [] "a.txt") = true) ∧
        (∀ p ∈ ([] : List String), globMatch p (relPathStr [] "a.txt") = false)) ∧
    List.Sorted StrLE (fileSelect ["b.txt", "a.txt"] ["a.txt", "b.txt"] [] []) ∧
    fileSelect ["b.txt", "a.txt"] ["a.txt", "b.txt"] [] [] =
      fileSelect ["a.txt", "b.txt"] ["a.txt", "b.txt"] [] [] := by
  have h := claim4_selection_and_sort ["b.txt", "a.txt"] ["a.txt", "b.txt"]
    ["a.txt", "b.txt"] [] [] "a.txt"
  exact ⟨h.1, h.2.1, h.2.2 (List.Perm.swap "a.txt" "b.txt" [])⟩

/-- C5: a format containing the diff-hash token emits the digest segment iff
the digest differs from the SHA-256-of-empty constant; when they are equal
the token contributes nothing, so the joined result equals that of the format
with every diff-hash occurrence removed (no extra or trailing separator). -/
theorem claim5_diff_hash_gating (ctx : FormatCtx) (fmt : List String) (sep : String) :
    formatTokens ctx fmt sep =
      formatTokens ctx
        (if ctx.sourceHash = emptyHash then fmt.filter (fun t => !decide (t = "diff-hash"))
         else fmt) sep ∧
    buildTokens ctx ("diff-hash" :: fmt) =
      (if ctx.sourceHash = emptyHash then buildTokens ctx fmt
       else (buildTokens ctx fmt).map (fun segs => ctx.sourceHash :: segs)) := by
  constructor
  · by_cases h : ctx.sourceHash = emptyHash
    · rw [if_pos h]
      unfold formatTokens
      rw [← buildTokens_filter_diffhash h]
    · rw [if_neg h]
  · by_cases h : ctx.sourceHash = emptyHash
    · rw [if_pos h]
      have hseg : tokenSegments ctx "diff-hash" = Except.ok [] := by
        simp [tokenSegments, h]
      cases hb : buildTokens ctx fmt <;> simp [buildTokens, hseg, hb]
    · rw [if_neg h]
      have hseg : tokenSegments ctx "diff-hash" = Except.ok [ctx.sourceHash] := by
        simp [tokenSegments, h]
      cases hb : buildTokens ctx fmt <;> simp [buildTokens, hseg, hb, Except.map]

/-- C6: the formatter processes tokens in spec order (splitting the format
splits the computation), each token yields zero or one segment,
package-version yields a v-prefixed segment only when the version is
non-empty, branch yields a segment only when a branch name is present,
short-commit-sha always yields the first seven characters of the commit,
commit-sha always yields the full hash, and a HEAD whose trimmed content does
not start with `ref:` (detached HEAD) produces an empty branch name, hence no
branch segment. -/
theorem claim6_token_formatter (ctx : FormatCtx) :
    tokenSegments ctx "package-version" =
      Except.ok (if ctx.packageVersion = "" then [] else ["v" ++ ctx.packageVersion]) ∧
    tokenSegments ctx "branch" =
      Except.ok (if ctx.branchName = "" then [] else [ctx.branchName]) ∧
    tokenSegments ctx "short-commit-sha" = Except.ok [jsTake 7 ctx.commitHash] ∧
    tokenSegments ctx "commit-sha" = Except.ok [ctx.commitHash] ∧
    (∀ t segs, tokenSegments ctx t = Except.ok segs → segs.length ≤ 1) ∧
    (∀ f1 f2, buildTokens ctx (f1 ++ f2) =
      match buildTokens ctx f1, buildTokens ctx f2 with
      | Except.ok a, Except.ok b => Except.ok (a ++ b)
      | Except.error e, _ => Except.error e
      | Except.ok _, Except.error e => Except.error e) ∧
    (∀ headContent readRef, jsStartsWith (jsTrim headContent) "ref:" = false →
      (inspectHead headContent readRef).branchName = "") := by
  refine ⟨rfl, rfl, rfl, rfl, ?_, fun f1 f2 => buildTokens_append ctx f1 f2, ?_⟩
  · intro t segs hseg
    by_cases hk : t ∈ knownTokens
    · simp only [knownTokens, List.mem_cons, List.not_mem_nil, or_false] at hk
      rcases hk with rfl | rfl | rfl | rfl | rfl <;>
        · injection hseg with h2
          subst h2
          first
            | (split <;> simp)
            | simp
    · rw [tokenSegments_unknown ctx hk] at hseg
      exact absurd hseg (by simp)
  · intro headContent readRef h
    simp [inspectHead, h]

/-- Witness for C6: the detached-HEAD and zero-or-one-segment hypotheses
discharged at a raw-commit HEAD content and the branch token. -/
theorem claim6_token_formatter_witness :
    (inspectHead "1234567890abcdef1234567890abcdef12345678" (fun _ => "")).branchName = "" ∧
    ([("main" : String)]).length ≤ 1 := by
  have h := claim6_token_formatter
    { packageVersion := "1.2.3", branchName := "main",
      commitHash := "abcdef1234567890abcdef1234567890abcdef12", sourceHash := "x" }
  refine ⟨h.2.2.2.2.2.2 "1234567890abcdef1234567890abcdef12345678" (fun _ => "") (by decide),
    h.2.2.2.2.1 "branch" ["main"] rfl⟩

/-- C7: every format containing a token outside the recognized set makes the
whole formatting step return the unknown-token error naming an offending
token, whatever the separator; no fingerprint string is produced. -/
theorem claim7_unknown_token (ctx : FormatCtx) (fmt : List String)
    (h : ∃ t ∈ fmt, t ∉ knownTokens) :
    ∃ t ∈ fmt, t ∉ knownTokens ∧
      ∀ sep, formatTokens ctx fmt sep = Except.error ("Unknown token: " ++ t) := by
  obtain ⟨t, ht, hu, hb⟩ := buildTokens_unknown ctx fmt h
  exact ⟨t, ht, hu, fun sep => by simp [formatTokens, hb]⟩

/-- Witness for C7: the format of the spec's own example, whose second token
is not recognized; the error names it and no partial output is produced. -/
theorem claim7_unknown_token_witness :
    formatTokens sampleCtx ["package-version", "bogus"] "-" =
      Except.error "Unknown token: bogus" ∧
    (∃ t ∈ (["package-version", "bogus"] : List String), t ∉ knownTokens ∧
      ∀ sep, formatTokens sampleCtx ["package-version", "bogus"] sep =
        Except.error ("Unknown token: " ++ t)) := by
  refine ⟨rfl, claim7_unknown_token sampleCtx ["package-version", "bogus"]
    ⟨"bogus", by decide, by decide⟩⟩

/-- C8: the formatter sanitizes every produced segment and only then joins
them with the separator in spec order with no reordering or deduplication;
sanitization rewrites exactly the characters outside the allowed class to a
colon, position by position, and in particular maps feat/test to feat:test. -/
theorem claim8_sanitize_before_join (ctx : FormatCtx) (fmt : List String)
    (sep s : String) (i : Nat) :
    formatTokens ctx fmt sep =
      (buildTokens ctx fmt).map (fun toks => jsJoin sep (toks.map sanitizeForFilesystem)) ∧
    (sanitizeForFilesystem s).data[i]? =
      (s.data[i]?).map (fun c => if isAllowedFilenameChar c then c else ':') ∧
    sanitizeForFilesystem "feat/test" = "feat:test" := by
  refine ⟨?_, ?_, by decide⟩
  · cases hb : buildTokens ctx fmt <;> simp [formatTokens, hb, Except.map]
  · simp [sanitizeForFilesystem, List.getElem?_map]

/-- C9: the change-set provider output has no duplicates, a failed git
invocation yields the empty set plus a logged diagnostic, and on success the
set contains exactly the nonblank listed (modified or untracked) paths and
the status-reported deleted paths, with nothing logged. -/
theorem claim9_change_set_provider (res : Option GitOutputs) (o : GitOutputs) (x : String) :
    (getGitModifiedFiles res).files.Nodup ∧
    getGitModifiedFiles none = { files := [], loggedError := true } ∧
    (x ∈ (getGitModifiedFiles (some o)).files ↔
      x ∈ gitListedFiles o ∨ x ∈ gitDeletedFiles o) ∧
    (getGitModifiedFiles (some o)).loggedError = false := by
  refine ⟨?_, rfl, ?_, rfl⟩
  · cases res with
    | none => exact List.nodup_nil
    | some o' => exact nodup_jsSetDedup _
  · simp [getGitModifiedFiles, mem_jsSetDedup, List.mem_append]

/-- C10: the separator string bypasses sanitization: joining inserts it
verbatim between sanitized segments, so a separator outside the allowed
character class (here the pipe, which sanitization itself would turn into a
colon) appears unchanged in the final fingerprint. -/
theorem claim10_separator_verbatim (sep a b : String) (rest : List String) :
    jsJoin sep ((a :: b :: rest).map sanitizeForFilesystem) =
      sanitizeForFilesystem a ++ sep ++ jsJoin sep ((b :: rest).map sanitizeForFilesystem) ∧
    sanitizeForFilesystem "|" = ":" ∧
    formatTokens sampleCtx ["branch", "short-commit-sha"] "|" = Except.ok "main|abcdef1" :=
  ⟨rfl, rfl, rfl⟩
